import Mathlib

/-!
Verification of the chronos core: the Ontology (entity + dependency graph)
of `src/chronos/ontology.py`, together with the external collaborators
(ChangeEvent/ChangeSet) and the Navigator's schedule merge, which are
modelled from the specification where their source is not available.

Python dictionaries are embedded as insertion-ordered association lists;
floats are embedded as rationals (no claim depends on rounding);
a raised exception is an `Except.error`.
-/

namespace Chronos

/-- Modelled from the spec (§6, src/chronos/change_algebra.py is not available):
an immutable value with fields `eid`, `t0`, `dt`, `prob` and an open `meta`
mapping; metadata values used by the core are integers (the priority). -/
structure ChangeEvent where
  eid : String
  t0 : ℚ
  dt : ℚ
  prob : ℚ
  meta : List (String × Int) := []
  deriving Repr, DecidableEq

/-- Modelled from the spec (§6, src/chronos/change_algebra.py is not available):
an ordered container of ChangeEvent supporting `add` and iteration in insertion
order, constructible from an initial sequence; as a Python container it is
falsy exactly when empty. -/
structure ChangeSet where
  events : List ChangeEvent := []
  deriving Repr, DecidableEq

/-- `ChangeSet.add` appends one event, keeping insertion order. -/
def ChangeSet.add (cs : ChangeSet) (ev : ChangeEvent) : ChangeSet :=
  ⟨cs.events ++ [ev]⟩

/-- Schema (src/chronos/ontology.py lines 7-13): frozen dataclass. -/
structure Schema where
  type_id : String
  mean_period : ℚ
  default_dt : ℚ := 0
  description : String := ""
  meta : List (String × Int) := []
  deriving Repr, DecidableEq

/-- The data fields of an Entity (src/chronos/ontology.py lines 15-22),
without the generator function; the generator receives this snapshot. -/
structure EntityCore where
  eid : String
  schema : Schema
  goal : ChangeEvent
  timeline : ChangeSet
  priority : Int := 0
  deriving Repr, DecidableEq

/-- A generator function `Entity -> ChangeSet | None`; a Python generator can
also raise, which is an `Except.error`. -/
def Gen : Type := EntityCore → Except Unit (Option ChangeSet)

/-- Entity (src/chronos/ontology.py lines 15-22): the data fields plus the
generator held by reference. -/
structure Entity where
  core : EntityCore
  generator : Gen

def Entity.eid (e : Entity) : String := e.core.eid
def Entity.schema (e : Entity) : Schema := e.core.schema
def Entity.goal (e : Entity) : ChangeEvent := e.core.goal
def Entity.timeline (e : Entity) : ChangeSet := e.core.timeline
def Entity.priority (e : Entity) : Int := e.core.priority

/-- The Python `generated or timeline` idiom (ontology.py lines 35 and 67):
`None` and an empty ChangeSet are falsy, so they keep `tl`; a non-empty
ChangeSet replaces it. -/
def orKeep (generated : Option ChangeSet) (tl : ChangeSet) : ChangeSet :=
  match generated with
  | none => tl
  | some cs => if cs.events = [] then tl else cs

/-- Error taxonomy (spec §7). Python raises KeyError at the DuplicateKey and
NotFound sites; a failing generator propagates its own exception
(`GeneratorError`). -/
inductive Err where
  | DuplicateKey
  | NotFound
  | CycleError
  | GeneratorError
  deriving Repr, DecidableEq

/-- Association-list lookup, the embedding of Python `dict.get` /
`key in dict`. -/
def lookupA {α : Type} : List (String × α) → String → Option α
  | [], _ => none
  | (k, v) :: rest, key => if k = key then some v else lookupA rest key

/-- Association-list update, the embedding of Python `d[k] = v`: an existing
key is overwritten in place, a new key is appended at the end. -/
def insertA {α : Type} : List (String × α) → String → α → List (String × α)
  | [], key, v => [(key, v)]
  | (k, w) :: rest, key, v =>
      if k = key then (key, v) :: rest else (k, w) :: insertA rest key v

/-- Ontology state (src/chronos/ontology.py lines 37-41): `_schemas`,
`_entities` and the defaultdict `_deps` mapping depender to
(dependee -> kind). -/
structure Ontology where
  schemas : List (String × Schema) := []
  entities : List (String × Entity) := []
  deps : List (String × List (String × String)) := []

/-- `Ontology.entities()` as the list of entity ids in insertion order. -/
def Ontology.entityIds (o : Ontology) : List String :=
  o.entities.map Prod.fst

/-- `Ontology.dependencies_of` (ontology.py lines 80-81):
`list(self._deps.get(eid, {}).items())`. -/
def Ontology.dependencies_of (o : Ontology) (eid : String) :
    List (String × String) :=
  (lookupA o.deps eid).getD []

/-- One depender's contribution to `dependents_of eid`: the inner dict
entries whose dependee is `eid`. -/
def dependentsIn (eid depender : String) (d : List (String × String)) :
    List (String × String) :=
  d.filterMap fun q => if q.1 = eid then some (depender, q.2) else none

/-- `Ontology.dependents_of` (ontology.py lines 83-84): full scan of all
stored edges, collecting `(depender, kind)` for every edge into `eid`. -/
def Ontology.dependents_of (o : Ontology) (eid : String) :
    List (String × String) :=
  o.deps.flatMap fun p => dependentsIn eid p.1 p.2

/-- `Entity.effective_priority` (ontology.py lines 30-32): base priority plus
one unit of pull per dependent, recomputed from the live graph. -/
def Entity.effective_priority (e : Entity) (o : Ontology) : Int :=
  e.priority + (o.dependents_of e.eid).length

/-- `Entity.regenerate` (ontology.py lines 34-35):
`self.timeline = self.generator(self) or self.timeline`; a raising
generator propagates and leaves the entity untouched. -/
def Entity.regenerate (e : Entity) : Except Unit Entity :=
  match e.generator e.core with
  | .error u => .error u
  | .ok generated =>
      .ok { e with core := { e.core with timeline := orKeep generated e.core.timeline } }

/-- `Ontology.spawn` (ontology.py lines 51-70), as a state-passing function:
the returned Ontology is the receiver's state when the call returns or
raises.  Checks DuplicateKey then NotFound, seeds the timeline with the goal
event, invokes the generator on the partially built entity, applies the
`or` idiom, then registers the entity. -/
def Ontology.spawn (o : Ontology) (entity_id type_id goal_name : String)
    (generator_fn : Gen) (t0 : ℚ) (priority : Int) :
    Except Err Entity × Ontology :=
  if (lookupA o.entities entity_id).isSome then
    (.error .DuplicateKey, o)
  else
    match lookupA o.schemas type_id with
    | none => (.error .NotFound, o)
    | some schema =>
        let goal_eid := entity_id ++ "::goal::" ++ goal_name
        let goal_ev : ChangeEvent :=
          ⟨goal_eid, t0, 0, 1, [("priority", priority)]⟩
        let seeded : ChangeSet := (ChangeSet.mk []).add goal_ev
        let core : EntityCore := ⟨entity_id, schema, goal_ev, seeded, priority⟩
        match generator_fn core with
        | .error _ => (.error .GeneratorError, o)
        | .ok generated =>
            let core2 := { core with timeline := orKeep generated seeded }
            let ent : Entity := ⟨core2, generator_fn⟩
            (.ok ent, { o with entities := insertA o.entities entity_id ent })

/-- `Ontology.add_dependency` (ontology.py lines 75-78), state-passing:
NotFound unless both endpoints are registered entities, then
`self._deps[depender][dependee] = kind` on the defaultdict. -/
def Ontology.add_dependency (o : Ontology) (depender dependee kind : String) :
    Except Err Unit × Ontology :=
  if (lookupA o.entities depender).isSome ∧ (lookupA o.entities dependee).isSome then
    let inner := (lookupA o.deps depender).getD []
    (.ok (), { o with deps := insertA o.deps depender (insertA inner dependee kind) })
  else
    (.error .NotFound, o)

/-! ### Navigator (modelled from the spec)

`src/chronos/navigator.py` is not available; the schedule-merge algorithm is
modelled from spec §4.2: a topological ordering over the dependency graph
computed by explicit traversal with a fuel bound (CycleError when the graph
is not acyclic), picking among the currently eligible entities by
`effective_priority` with the external metric's score as tie-break, then a
walk appending each entity's events offset past its dependees' latest end,
with one slack event per gap. -/

/-- The dependency-graph edge relation: `o.edge a b` holds when `a` depends
on `b` (there is a stored edge `(a, b) -> kind`). -/
def Ontology.edge (o : Ontology) (a b : String) : Prop :=
  ∃ p ∈ o.dependencies_of a, p.1 = b

instance (o : Ontology) (a b : String) : Decidable (o.edge a b) := by
  unfold Ontology.edge
  infer_instance

/-- Modelled from the spec (§4.2.1): the dependency graph is acyclic when no
entity reaches itself through one or more dependency edges. -/
def Ontology.Acyclic (o : Ontology) : Prop :=
  ∀ x, ¬ Relation.TransGen o.edge x x

/-- Well-formedness maintained by the Ontology operations: entity ids are
unique (Python dict keys) and every stored edge endpoint is a registered
entity (`add_dependency` rejects dangling edges). -/
def Ontology.WellFormed (o : Ontology) : Prop :=
  (o.entities.map Prod.fst).Nodup ∧
  ∀ p ∈ o.deps, p.1 ∈ o.entityIds ∧ ∀ q ∈ p.2, q.1 ∈ o.entityIds

instance (o : Ontology) : Decidable o.WellFormed := by
  unfold Ontology.WellFormed
  infer_instance

/-- Modelled from the spec (§4.2.1): the entities whose every dependee has
already left `remaining` (been scheduled), hence schedulable now. -/
def eligibles (o : Ontology) (remaining : List String) : List String :=
  remaining.filter fun a =>
    (o.dependencies_of a).all fun p => decide (p.1 ∉ remaining)

/-- Effective priority of an entity id as read from the live graph; ids that
are not registered entities score 0 (unreachable for well-formed input). -/
def effPriorityOf (o : Ontology) (id : String) : Int :=
  match lookupA o.entities id with
  | some e => e.effective_priority o
  | none => 0

/-- Modelled from the spec (§6): the external InnovationMetric's score of an
entity id; the Navigator only needs its comparable result, so the metric is
an arbitrary function. -/
def scoreOf (metric : Entity → ℚ) (o : Ontology) (id : String) : ℚ :=
  match lookupA o.entities id with
  | some e => metric e
  | none => 0

/-- Modelled from the spec (§4.2.1, §4.2.4): `a` is scheduled before `best`
when its effective priority is higher, or equal with a higher metric score. -/
def betterB (metric : Entity → ℚ) (o : Ontology) (a best : String) : Bool :=
  decide (effPriorityOf o a > effPriorityOf o best ∨
    (effPriorityOf o a = effPriorityOf o best ∧
      scoreOf metric o a > scoreOf metric o best))

/-- Pick the eligible entity to merge next: the maximum under `betterB`,
keeping the earlier entity on ties. -/
def pickBest (metric : Entity → ℚ) (o : Ontology) :
    List String → Option String
  | [] => none
  | x :: xs =>
      some (xs.foldl (fun best a => if betterB metric o a best then a else best) x)

/-- Modelled from the spec (§4.2.1): explicit bounded traversal computing a
topological order; every exit with unprocessed entities is a CycleError,
never unbounded recursion. -/
def topoLoop (metric : Entity → ℚ) (o : Ontology) :
    Nat → List String → List String → Except Err (List String)
  | 0, remaining, acc =>
      if remaining = [] then .ok acc.reverse else .error .CycleError
  | fuel + 1, remaining, acc =>
      if remaining = [] then .ok acc.reverse
      else
        match pickBest metric o (eligibles o remaining) with
        | none => .error .CycleError
        | some a => topoLoop metric o fuel (remaining.erase a) (a :: acc)

/-- Topological sort of all entities, fuelled by the entity count. -/
def topoSort (metric : Entity → ℚ) (o : Ontology) : Except Err (List String) :=
  topoLoop metric o o.entityIds.length o.entityIds []

/-- State of the merge walk: the combined timeline so far and, per scheduled
entity that contributed events, the latest end time (`t0 + dt`) among them. -/
structure MergeState where
  combined : List ChangeEvent := []
  finished : List (String × ℚ) := []

/-- Latest end time `t0 + dt` over a contributed event list. -/
def latestEnd : List ChangeEvent → Option ℚ
  | [] => none
  | ev :: rest => some (rest.foldl (fun m q => max m (q.t0 + q.dt)) (ev.t0 + ev.dt))

/-- Modelled from the spec (§4.2.2): the latest end time over all of the
entity's dependees' contributed events, `none` when no dependee contributed. -/
def requiredStart (o : Ontology) (finished : List (String × ℚ)) (id : String) :
    Option ℚ :=
  (o.dependencies_of id).foldl
    (fun acc p =>
      match lookupA finished p.1 with
      | none => acc
      | some f =>
          match acc with
          | none => some f
          | some m => some (max m f))
    none

/-- Modelled from the spec (§4.2.2): the offset applied to an entity's
events, zero when no dependee constrains it or its earliest event already
starts late enough, otherwise the size of the enforced gap. -/
def gapFor (o : Ontology) (st : MergeState) (id : String) (earliest : ℚ) : ℚ :=
  match requiredStart o st.finished id with
  | none => 0
  | some r => if earliest < r then r - earliest else 0

/-- Modelled from the spec (§4.2.2): append one entity's events to the
combined output, offset so none begins strictly before every dependee's
latest end, preceded by one slack event when a gap is enforced. -/
def scheduleEntity (o : Ontology) (st : MergeState) (id : String) : MergeState :=
  match lookupA o.entities id with
  | none => st
  | some e =>
      match e.timeline.events with
      | [] => st
      | ev :: rest =>
          let earliest := rest.foldl (fun m q => min m q.t0) ev.t0
          let gap := gapFor o st id earliest
          let shifted := (ev :: rest).map fun q => { q with t0 := q.t0 + gap }
          let slack : List ChangeEvent :=
            if gap = 0 then []
            else [⟨"slack::" ++ id, earliest + gap, gap, 1, []⟩]
          let fin :=
            match latestEnd shifted with
            | none => st.finished
            | some f => insertA st.finished id f
          { combined := st.combined ++ slack ++ shifted, finished := fin }

/-- Modelled from the spec (§4.2): `Navigator.multi_entity_schedule`,
parameterised by the external metric's score function. -/
def Navigator.multi_entity_schedule (metric : Entity → ℚ) (o : Ontology) :
    Except Err ChangeSet :=
  match topoSort metric o with
  | .error e => .error e
  | .ok order =>
      .ok ⟨(order.foldl (scheduleEntity o) {}).combined⟩

/-! ### Association-list lemmas -/

theorem lookupA_insertA_self {α : Type} (l : List (String × α)) (k : String) (v : α) :
    lookupA (insertA l k v) k = some v := by
  induction l with
  | nil => simp [insertA, lookupA]
  | cons p rest ih =>
      obtain ⟨k0, w⟩ := p
      by_cases h : k0 = k
      · simp [insertA, h, lookupA]
      · simp [insertA, h, lookupA, ih]

theorem lookupA_insertA_ne {α : Type} (l : List (String × α)) {k k2 : String}
    (v : α) (h : k2 ≠ k) : lookupA (insertA l k v) k2 = lookupA l k2 := by
  induction l with
  | nil =>
      have hne : k ≠ k2 := fun hh => h hh.symm
      simp [insertA, lookupA, hne]
  | cons p rest ih =>
      obtain ⟨k0, w⟩ := p
      by_cases h0 : k0 = k
      · subst h0
        have hne : k0 ≠ k2 := fun hh => h hh.symm
        simp [insertA, lookupA, hne]
      · simp [insertA, h0, lookupA, ih]

theorem mem_of_lookupA {α : Type} {l : List (String × α)} {k : String} {v : α}
    (h : lookupA l k = some v) : (k, v) ∈ l := by
  induction l with
  | nil => simp [lookupA] at h
  | cons p rest ih =>
      obtain ⟨k0, w⟩ := p
      by_cases h0 : k0 = k
      · subst h0
        simp [lookupA] at h
        simp [h]
      · simp [lookupA, h0] at h
        simp [ih h]

theorem lookupA_eq_none_of_not_mem {α : Type} {l : List (String × α)} {k : String}
    (h : ∀ v, (k, v) ∉ l) : lookupA l k = none := by
  induction l with
  | nil => simp [lookupA]
  | cons p rest ih =>
      obtain ⟨k0, w⟩ := p
      by_cases h0 : k0 = k
      · subst h0
        exact absurd (by simp) (h w)
      · simp [lookupA, h0]
        exact ih fun v hv => h v (by simp [hv])

theorem not_mem_of_lookupA_none {α : Type} {l : List (String × α)} {k : String}
    (h : lookupA l k = none) : ∀ v, (k, v) ∉ l := by
  intro v hv
  induction l with
  | nil => simp at hv
  | cons p rest ih =>
      obtain ⟨k0, w⟩ := p
      by_cases h0 : k0 = k
      · subst h0
        simp [lookupA] at h
      · simp [lookupA, h0] at h
        rcases List.mem_cons.mp hv with h1 | h1
        · exact h0 (congrArg Prod.fst h1).symm
        · exact ih h h1

theorem insertA_of_lookupA_none {α : Type} {l : List (String × α)} {k : String}
    (v : α) (h : lookupA l k = none) : insertA l k v = l ++ [(k, v)] := by
  induction l with
  | nil => simp [insertA]
  | cons p rest ih =>
      obtain ⟨k0, w⟩ := p
      by_cases h0 : k0 = k
      · subst h0
        simp [lookupA] at h
      · simp [lookupA, h0] at h
        simp [insertA, h0, ih h]

theorem mem_insertA {α : Type} {l : List (String × α)} {k : String} {v : α}
    {p : String × α} (h : p ∈ insertA l k v) : p ∈ l ∨ p = (k, v) := by
  induction l with
  | nil => simp [insertA] at h; simp [h]
  | cons q rest ih =>
      obtain ⟨k0, w⟩ := q
      by_cases h0 : k0 = k
      · subst h0
        simp [insertA] at h
        rcases h with h | h
        · right; simp [h]
        · left; simp [h]
      · simp [insertA, h0] at h
        rcases h with h | h
        · left; simp [h]
        · rcases ih h with h1 | h1
          · left; simp [h1]
          · right; exact h1

theorem keys_insertA_nodup {α : Type} {l : List (String × α)} (k : String) (v : α)
    (h : (l.map Prod.fst).Nodup) : ((insertA l k v).map Prod.fst).Nodup := by
  induction l with
  | nil => simp [insertA]
  | cons p rest ih =>
      obtain ⟨k0, w⟩ := p
      simp at h
      by_cases h0 : k0 = k
      · subst h0
        simpa [insertA] using h
      · simp [insertA, h0]
        refine ⟨fun q hq => ?_, ih h.2⟩
        rcases mem_insertA hq with h1 | h1
        · exact h.1 q h1
        · exact h0 (congrArg Prod.fst h1)

/-! ### Lemmas about the dependency scan -/

theorem dependentsIn_append (t dd : String) (d1 d2 : List (String × String)) :
    dependentsIn t dd (d1 ++ d2) = dependentsIn t dd d1 ++ dependentsIn t dd d2 := by
  simp [dependentsIn]

theorem dependentsIn_eq_nil {t dd : String} {d : List (String × String)}
    (h : lookupA d t = none) : dependentsIn t dd d = [] := by
  have hnm := not_mem_of_lookupA_none h
  simp only [dependentsIn, List.filterMap_eq_nil_iff]
  intro q hq
  have : q.1 ≠ t := by
    intro he
    exact hnm q.2 (by rw [← he]; exact hq)
  simp [this]

/-- The raw scan behind `dependents_of`, over an explicit deps list. -/
def dependentsScan (deps : List (String × List (String × String))) (t : String) :
    List (String × String) :=
  deps.flatMap fun p => dependentsIn t p.1 p.2

theorem dependents_of_eq_scan (o : Ontology) (t : String) :
    o.dependents_of t = dependentsScan o.deps t := rfl

/-- Recording a fresh edge `d -> t` splits the dependents scan of `t` around
exactly one new entry `(d, k)`. -/
theorem dependentsScan_cons (p : String × List (String × String))
    (rest : List (String × List (String × String))) (t : String) :
    dependentsScan (p :: rest) t =
      dependentsIn t p.1 p.2 ++ dependentsScan rest t := by
  simp [dependentsScan]

theorem dependentsScan_insert (deps : List (String × List (String × String)))
    (d t k : String) (h : lookupA ((lookupA deps d).getD []) t = none) :
    ∃ l1 l2, dependentsScan deps t = l1 ++ l2 ∧
      dependentsScan (insertA deps d (insertA ((lookupA deps d).getD []) t k)) t =
        l1 ++ (d, k) :: l2 := by
  induction deps with
  | nil =>
      refine ⟨[], [], rfl, ?_⟩
      simp [insertA, dependentsScan, dependentsIn, lookupA]
  | cons p rest ih =>
      obtain ⟨k0, inner0⟩ := p
      by_cases h0 : k0 = d
      · subst h0
        have h' : lookupA inner0 t = none := by simpa [lookupA] using h
        refine ⟨[], dependentsIn t k0 inner0 ++ dependentsScan rest t, ?_, ?_⟩
        · simp [dependentsScan_cons]
        · have hv : insertA ((lookupA ((k0, inner0) :: rest) k0).getD []) t k =
              inner0 ++ [(t, k)] := by
            simp [lookupA, insertA_of_lookupA_none k h']
          rw [hv]
          have hins : insertA ((k0, inner0) :: rest) k0 (inner0 ++ [(t, k)]) =
              (k0, inner0 ++ [(t, k)]) :: rest := by
            simp [insertA]
          rw [hins, dependentsScan_cons, dependentsIn_eq_nil h']
          simp [dependentsIn_append, dependentsIn_eq_nil h', dependentsIn]
          intro a b hab hat
          exact not_mem_of_lookupA_none h' b (hat ▸ hab)
      · have hlk : lookupA ((k0, inner0) :: rest) d = lookupA rest d := by
          simp [lookupA, h0]
        rw [hlk] at h
        obtain ⟨l1, l2, h1, h2⟩ := ih h
        refine ⟨dependentsIn t k0 inner0 ++ l1, l2, ?_, ?_⟩
        · rw [dependentsScan_cons, h1]
          exact (List.append_assoc _ _ _).symm
        · rw [hlk]
          have hins : insertA ((k0, inner0) :: rest) d
              (insertA ((lookupA rest d).getD []) t k) =
              (k0, inner0) :: insertA rest d (insertA ((lookupA rest d).getD []) t k) := by
            simp [insertA, h0]
          rw [hins, dependentsScan_cons, h2]
          exact (List.append_assoc _ _ _).symm

/-! ### Concrete instances used by witnesses -/

def demoSchema : Schema := ⟨"s", 1, 1/2, "", []⟩

def genNone : Gen := fun _ => .ok none

def demoGoal : ChangeEvent := ⟨"a::goal::g", 5, 0, 1, [("priority", 2)]⟩

def demoEnt : Entity := ⟨⟨"a", demoSchema, demoGoal, ⟨[demoGoal]⟩, 2⟩, genNone⟩

def demoGoalB : ChangeEvent := ⟨"b::goal::g", 0, 0, 1, [("priority", 0)]⟩

def demoEntB : Entity := ⟨⟨"b", demoSchema, demoGoalB, ⟨[demoGoalB]⟩, 0⟩, genNone⟩

def demoOnt : Ontology := ⟨[("s", demoSchema)], [], []⟩

def twoEnt : Ontology :=
  ⟨[("s", demoSchema)], [("a", demoEnt), ("b", demoEntB)], []⟩

/-- The per-pair uniqueness invariant of the dependency map: outer keys
(dependers) are unique and each inner map's keys (dependees) are unique, so
every `(depender, dependee)` pair maps to at most one kind. -/
def DepsUnique (o : Ontology) : Prop :=
  (o.deps.map Prod.fst).Nodup ∧ ∀ p ∈ o.deps, (p.2.map Prod.fst).Nodup

/-! ### Claim theorems: Ontology operations -/

/-- Claim C3: `spawn` fails with DuplicateKey when `entity_id` is registered,
with NotFound when `type_id` is not a registered schema, and every failing
call — the generator raising included — leaves the Ontology (entity map,
schema map and dependency map) exactly as before. -/
theorem spawn_error_cases (o : Ontology) (entity_id type_id goal_name : String)
    (gen : Gen) (t0 : ℚ) (pr : Int) :
    ((lookupA o.entities entity_id).isSome = true →
      o.spawn entity_id type_id goal_name gen t0 pr = (.error .DuplicateKey, o)) ∧
    (lookupA o.entities entity_id = none → lookupA o.schemas type_id = none →
      o.spawn entity_id type_id goal_name gen t0 pr = (.error .NotFound, o)) ∧
    (∀ err, (o.spawn entity_id type_id goal_name gen t0 pr).1 = .error err →
      (o.spawn entity_id type_id goal_name gen t0 pr).2 = o) := by
  refine ⟨?_, ?_, ?_⟩
  · intro h
    simp [Ontology.spawn, h]
  · intro h1 h2
    simp [Ontology.spawn, h1, h2]
  · intro err
    unfold Ontology.spawn
    by_cases h1 : (lookupA o.entities entity_id).isSome = true
    · simp [h1]
    · simp [h1]
      cases h2 : lookupA o.schemas type_id with
      | none => simp
      | some sch =>
          cases hg : gen ⟨entity_id, sch,
              ⟨entity_id ++ "::goal::" ++ goal_name, t0, 0, 1, [("priority", pr)]⟩,
              (ChangeSet.mk []).add
                ⟨entity_id ++ "::goal::" ++ goal_name, t0, 0, 1, [("priority", pr)]⟩,
              pr⟩ with
          | error u => simp [hg]
          | ok g => simp [hg]

/-- Claim C3 witness at a concrete duplicate spawn. -/
theorem spawn_error_cases_witness :
    twoEnt.spawn "a" "s" "g" genNone 0 0 = (.error .DuplicateKey, twoEnt) :=
  (spawn_error_cases twoEnt "a" "s" "g" genNone 0 0).1 rfl

/-- Claim C5: `add_dependency` fails with NotFound when either endpoint is
not a registered entity, leaving the state unchanged; when both exist it
records the edge, overwriting any edge of the same pair, preserving the
one-kind-per-pair invariant. -/
theorem add_dependency_cases (o : Ontology) (depender dependee kind : String) :
    (¬((lookupA o.entities depender).isSome = true ∧
        (lookupA o.entities dependee).isSome = true) →
      o.add_dependency depender dependee kind = (.error .NotFound, o)) ∧
    ((lookupA o.entities depender).isSome = true →
      (lookupA o.entities dependee).isSome = true →
      ∃ o2, o.add_dependency depender dependee kind = (.ok (), o2) ∧
        lookupA ((lookupA o2.deps depender).getD []) dependee = some kind ∧
        (DepsUnique o → DepsUnique o2)) := by
  constructor
  · intro h
    simp only [Ontology.add_dependency, if_neg h]
  · intro h1 h2
    refine ⟨{ o with deps := insertA o.deps depender (insertA ((lookupA o.deps depender).getD []) dependee kind) }, ?_, ?_, ?_⟩
    · simp only [Ontology.add_dependency, if_pos (And.intro h1 h2)]
    · rw [lookupA_insertA_self]
      simp [lookupA_insertA_self]
    · rintro ⟨hout, hin⟩
      refine ⟨keys_insertA_nodup depender _ hout, ?_⟩
      intro p hp
      rcases mem_insertA hp with hmem | heq
      · exact hin p hmem
      · rw [heq]
        cases hl : lookupA o.deps depender with
        | none => simp [hl, insertA]
        | some inner =>
            have : (inner.map Prod.fst).Nodup :=
              hin (depender, inner) (mem_of_lookupA hl)
            simpa [hl] using keys_insertA_nodup dependee kind this

/-- Claim C5 witness at a concrete successful edge insertion. -/
theorem add_dependency_cases_witness :
    lookupA ((lookupA ((twoEnt.add_dependency "a" "b" "supports").2).deps "a").getD [])
      "b" = some "supports" := by
  obtain ⟨o2, h1, h2, h3⟩ :=
    (add_dependency_cases twoEnt "a" "b" "supports").2 rfl rfl
  rw [h1]
  exact h2

/-- Claim C6: on a successful spawn the goal event is exactly
`{eid: entity_id ++ "::goal::" ++ goal_name, t0, dt 0, prob 1,
meta priority}`, the timeline is seeded with exactly that one event, and the
generator is invoked on the partially built entity carrying that seeded
timeline; the whole call is characterised by that seeded entity. -/
theorem spawn_goal_construction (o : Ontology)
    (entity_id type_id goal_name : String) (gen : Gen) (t0 : ℚ) (pr : Int)
    (sch : Schema) (goal_ev : ChangeEvent) (seeded : EntityCore)
    (h1 : lookupA o.entities entity_id = none)
    (h2 : lookupA o.schemas type_id = some sch)
    (hge : goal_ev = ⟨entity_id ++ "::goal::" ++ goal_name, t0, 0, 1,
      [("priority", pr)]⟩)
    (hse : seeded = ⟨entity_id, sch, goal_ev, ⟨[goal_ev]⟩, pr⟩) :
    o.spawn entity_id type_id goal_name gen t0 pr =
      (match gen seeded with
       | .error _ => (.error .GeneratorError, o)
       | .ok generated =>
           (.ok (Entity.mk { seeded with timeline := orKeep generated ⟨[goal_ev]⟩ } gen),
            { o with entities := insertA o.entities entity_id (Entity.mk { seeded with timeline := orKeep generated ⟨[goal_ev]⟩ } gen) })) := by
  subst hge hse
  unfold Ontology.spawn
  simp only [h1, h2, Option.isSome_none, Bool.false_eq_true, if_false]
  rfl

/-- Claim C6 witness: the characterisation evaluated at a concrete spawn. -/
theorem spawn_goal_construction_witness :
    demoOnt.spawn "a" "s" "g" genNone 5 2 =
      (.ok demoEnt, { demoOnt with entities := insertA demoOnt.entities "a" demoEnt }) := by
  have h := spawn_goal_construction demoOnt "a" "s" "g" genNone 5 2 demoSchema
    demoGoal ⟨"a", demoSchema, demoGoal, ⟨[demoGoal]⟩, 2⟩ rfl rfl rfl rfl
  exact h.trans rfl

def twoEntBA : Ontology :=
  ⟨[("s", demoSchema)], [("a", demoEnt), ("b", demoEntB)], [("b", [("a", "supports")])]⟩

/-- Claim C4: `effective_priority` is the base priority plus the number of
`dependents_of` entries, recomputed from the live graph; adding an edge from
a new depender to `e` increases `effective_priority e` by exactly 1. -/
theorem effective_priority_pull (o o2 : Ontology) (d t kind : String) (e : Entity)
    (hedge : ¬ o.edge d t)
    (hadd : o.add_dependency d t kind = (.ok (), o2))
    (heid : e.eid = t) :
    e.effective_priority o = e.priority + (o.dependents_of t).length ∧
    e.effective_priority o2 = e.effective_priority o + 1 := by
  have hinner : lookupA ((lookupA o.deps d).getD []) t = none := by
    apply lookupA_eq_none_of_not_mem
    intro v hv
    exact hedge ⟨(t, v), hv, rfl⟩
  have ho2 : o2.deps = insertA o.deps d (insertA ((lookupA o.deps d).getD []) t kind) := by
    unfold Ontology.add_dependency at hadd
    by_cases hc : (lookupA o.entities d).isSome = true ∧ (lookupA o.entities t).isSome = true
    · rw [if_pos hc] at hadd
      have h2 := congrArg Prod.snd hadd
      simp only at h2
      rw [← h2]
    · rw [if_neg hc] at hadd
      exact absurd (congrArg Prod.fst hadd) (by simp)
  obtain ⟨l1, l2, hs1, hs2⟩ := dependentsScan_insert o.deps d t kind hinner
  constructor
  · unfold Entity.effective_priority
    rw [heid]
  · unfold Entity.effective_priority
    rw [heid, dependents_of_eq_scan, dependents_of_eq_scan, ho2, hs2, hs1]
    simp only [List.length_append, List.length_cons]
    push_cast
    ring

/-- Claim C4 witness at a concrete new edge. -/
theorem effective_priority_pull_witness :
    demoEnt.effective_priority twoEntBA = demoEnt.effective_priority twoEnt + 1 :=
  (effective_priority_pull twoEnt twoEntBA "b" "a" "supports" demoEnt
    (by decide) rfl rfl).2

/-- Claim C10: a self-loop `add_dependency e e kind` on a registered entity
succeeds, `(e, kind)` then appears in `dependents_of e`, and when `e` had no
other dependents its effective priority becomes base priority + 1 with `e`
itself as the only depender. -/
theorem self_loop_dependency (o : Ontology) (e kind : String) (ent : Entity)
    (hreg : lookupA o.entities e = some ent) (heid : ent.eid = e)
    (hnone : o.dependents_of e = []) :
    ∃ o2, o.add_dependency e e kind = (.ok (), o2) ∧
      o2.dependents_of e = [(e, kind)] ∧
      ent.effective_priority o2 = ent.priority + 1 := by
  have hs : (lookupA o.entities e).isSome = true := by rw [hreg]; rfl
  have hinner : lookupA ((lookupA o.deps e).getD []) e = none := by
    cases hl : lookupA o.deps e with
    | none => simp [lookupA]
    | some inner =>
        simp only [Option.getD_some]
        apply lookupA_eq_none_of_not_mem
        intro v hv
        have hmem : (e, inner) ∈ o.deps := mem_of_lookupA hl
        have hin : (e, v) ∈ dependentsIn e e inner := by
          unfold dependentsIn
          exact List.mem_filterMap.mpr ⟨(e, v), hv, by simp⟩
        have hsc : (e, v) ∈ dependentsScan o.deps e :=
          List.mem_flatMap.mpr ⟨(e, inner), hmem, hin⟩
        rw [← dependents_of_eq_scan, hnone] at hsc
        simp at hsc
  obtain ⟨l1, l2, hs1, hs2⟩ := dependentsScan_insert o.deps e e kind hinner
  rw [dependents_of_eq_scan] at hnone
  rw [hnone] at hs1
  obtain ⟨h1, h2⟩ := List.append_eq_nil.mp hs1.symm
  refine ⟨{ o with deps := insertA o.deps e (insertA ((lookupA o.deps e).getD []) e kind) }, ?_, ?_, ?_⟩
  · simp only [Ontology.add_dependency, if_pos (And.intro hs hs)]
  · rw [dependents_of_eq_scan]
    show dependentsScan (insertA o.deps e (insertA ((lookupA o.deps e).getD []) e kind)) e = _
    rw [hs2, h1, h2]
    rfl
  · unfold Entity.effective_priority
    rw [heid, dependents_of_eq_scan]
    show ent.priority + (dependentsScan (insertA o.deps e (insertA ((lookupA o.deps e).getD []) e kind)) e).length = _
    rw [hs2, h1, h2]
    rfl

/-- Claim C10 witness at a concrete self-loop. -/
theorem self_loop_dependency_witness :
    ((twoEnt.add_dependency "a" "a" "supports").2).dependents_of "a" =
      [("a", "supports")] ∧
    demoEnt.effective_priority ((twoEnt.add_dependency "a" "a" "supports").2) =
      demoEnt.priority + 1 := by
  obtain ⟨o2, hadd, hdep, heff⟩ :=
    self_loop_dependency twoEnt "a" "supports" demoEnt rfl rfl rfl
  rw [hadd]
  exact ⟨hdep, heff⟩

/-- Claim C7: a generator returning None means keep the current timeline:
`regenerate` leaves the entity's timeline untouched and spawn with a
None-returning generator keeps the seeded goal-only timeline. -/
theorem generator_none_keeps_timeline (e : Entity) (o : Ontology) (gen : Gen)
    (entity_id type_id goal_name : String) (t0 : ℚ) (pr : Int) (sch : Schema) :
    (e.generator e.core = .ok none → e.regenerate = .ok e) ∧
    ((∀ c, gen c = .ok none) → lookupA o.entities entity_id = none →
      lookupA o.schemas type_id = some sch →
      (o.spawn entity_id type_id goal_name gen t0 pr).1.map Entity.timeline =
        .ok ⟨[⟨entity_id ++ "::goal::" ++ goal_name, t0, 0, 1, [("priority", pr)]⟩]⟩) := by
  constructor
  · intro h
    unfold Entity.regenerate
    rw [h]
    rfl
  · intro hg h1 h2
    unfold Ontology.spawn
    simp only [h1, h2, Option.isSome_none, Bool.false_eq_true, if_false]
    rw [hg]
    rfl

/-- Claim C7 witness: regenerate and spawn with a None generator. -/
theorem generator_none_keeps_timeline_witness :
    demoEnt.regenerate = .ok demoEnt ∧
    (demoOnt.spawn "a" "s" "g" genNone 5 2).1.map Entity.timeline = .ok ⟨[demoGoal]⟩ := by
  have h := generator_none_keeps_timeline demoEnt demoOnt genNone "a" "s" "g" 5 2 demoSchema
  exact ⟨h.1 rfl, (h.2 (fun c => rfl) rfl rfl).trans rfl⟩

/-- Claim C8: `regenerate` may change only the timeline; `eid`, `schema`,
`goal`, `generator` and `priority` are unchanged. -/
theorem regenerate_frame (e e2 : Entity) (h : e.regenerate = .ok e2) :
    e2.eid = e.eid ∧ e2.schema = e.schema ∧ e2.goal = e.goal ∧
    e2.generator = e.generator ∧ e2.priority = e.priority := by
  unfold Entity.regenerate at h
  cases hg : e.generator e.core with
  | error u =>
      rw [hg] at h
      simp at h
  | ok generated =>
      rw [hg] at h
      injection h with h2
      rw [← h2]
      exact ⟨rfl, rfl, rfl, rfl, rfl⟩

def evX : ChangeEvent := ⟨"x", 3, 1, 1, []⟩

def genGrow : Gen := fun _ => .ok (some ⟨[evX]⟩)

def entG : Entity := ⟨⟨"a", demoSchema, demoGoal, ⟨[demoGoal]⟩, 2⟩, genGrow⟩

def entG2 : Entity := ⟨⟨"a", demoSchema, demoGoal, ⟨[evX]⟩, 2⟩, genGrow⟩

/-- Claim C8 witness at a concrete timeline-replacing regenerate. -/
theorem regenerate_frame_witness :
    entG2.eid = entG.eid ∧ entG2.schema = entG.schema ∧ entG2.goal = entG.goal ∧
    entG2.generator = entG.generator ∧ entG2.priority = entG.priority :=
  regenerate_frame entG entG2 rfl

/-- Claim C9: `dependencies_of` and `dependents_of` are total queries: each
returns a `(other_eid, kind)` list, empty when the id has no outgoing
(respectively incoming) edges, and in particular for ids never spawned. -/
theorem dependency_queries_total (o : Ontology) (eid : String) :
    (lookupA o.deps eid = none → o.dependencies_of eid = []) ∧
    ((∀ p ∈ o.deps, ∀ q ∈ p.2, q.1 ≠ eid) → o.dependents_of eid = []) ∧
    (o.WellFormed → eid ∉ o.entityIds →
      o.dependencies_of eid = [] ∧ o.dependents_of eid = []) := by
  have hdeps : (∀ p ∈ o.deps, ∀ q ∈ p.2, q.1 ≠ eid) → o.dependents_of eid = [] := by
    intro h
    rw [dependents_of_eq_scan]
    unfold dependentsScan
    rw [List.flatMap_eq_nil_iff]
    intro p hp
    unfold dependentsIn
    rw [List.filterMap_eq_nil_iff]
    intro q hq
    simp [h p hp q hq]
  refine ⟨?_, hdeps, ?_⟩
  · intro h
    unfold Ontology.dependencies_of
    rw [h]
    rfl
  · intro hwf hmem
    constructor
    · unfold Ontology.dependencies_of
      cases hl : lookupA o.deps eid with
      | none => rfl
      | some inner =>
          exact absurd (hwf.2 (eid, inner) (mem_of_lookupA hl)).1 hmem
    · apply hdeps
      intro p hp q hq he
      exact hmem (he ▸ (hwf.2 p hp).2 q hq)

/-- Claim C9 witness at an id that was never spawned. -/
theorem dependency_queries_total_witness :
    twoEnt.dependencies_of "zzz" = [] ∧ twoEnt.dependents_of "zzz" = [] :=
  (dependency_queries_total twoEnt "zzz").2.2 (by decide) (by decide)

def evOther : ChangeEvent := ⟨"other", 0, 0, 1, []⟩

def genDrop : Gen := fun _ => .ok (some ⟨[evOther]⟩)

def entDropped : Entity :=
  ⟨⟨"a", demoSchema, ⟨"a::goal::g", 0, 0, 1, [("priority", 0)]⟩, ⟨[evOther]⟩, 0⟩, genDrop⟩

/-- Claim C1 counterexample: a generator returning a non-empty ChangeSet that
omits the goal event makes spawn succeed with a timeline that no longer
contains the goal event, so the invariant does not hold for every generator. -/
theorem spawn_goal_lost :
    (demoOnt.spawn "a" "s" "g" genDrop 0 0).1 = .ok entDropped ∧
    entDropped.goal ∉ entDropped.timeline.events :=
  ⟨rfl, by decide⟩

/-- Claim C1 (amended): after a successful spawn the timeline contains the
goal event provided the generator returns None, an empty ChangeSet, or a
ChangeSet that itself contains the entity's goal event; a non-empty
generated ChangeSet replaces the seeded timeline wholesale. -/
theorem spawn_goal_in_timeline (o : Ontology)
    (entity_id type_id goal_name : String) (gen : Gen) (t0 : ℚ) (pr : Int)
    (res : Entity) (o2 : Ontology)
    (hgen : ∀ c, gen c = .ok none ∨ gen c = .ok (some ⟨[]⟩) ∨
      ∃ cs, gen c = .ok (some cs) ∧ c.goal ∈ cs.events)
    (hok : o.spawn entity_id type_id goal_name gen t0 pr = (.ok res, o2)) :
    res.goal ∈ res.timeline.events := by
  by_cases hd : (lookupA o.entities entity_id).isSome = true
  · have heq : o.spawn entity_id type_id goal_name gen t0 pr = (.error .DuplicateKey, o) := by
      simp [Ontology.spawn, hd]
    rw [heq] at hok
    exact absurd (congrArg Prod.fst hok) (by simp)
  · cases hs : lookupA o.schemas type_id with
    | none =>
        have heq : o.spawn entity_id type_id goal_name gen t0 pr = (.error .NotFound, o) := by
          simp [Ontology.spawn, hd, hs]
        rw [heq] at hok
        exact absurd (congrArg Prod.fst hok) (by simp)
    | some sch =>
        rcases hgen ⟨entity_id, sch, ⟨entity_id ++ "::goal::" ++ goal_name, t0, 0, 1, [("priority", pr)]⟩, (ChangeSet.mk []).add ⟨entity_id ++ "::goal::" ++ goal_name, t0, 0, 1, [("priority", pr)]⟩, pr⟩ with hg | hg | hg
        · simp only [Ontology.spawn, hd, hs, hg, orKeep] at hok
          have hres := congrArg Prod.fst hok
          simp only at hres
          injection hres with hres
          rw [← hres]
          simp [Entity.goal, Entity.timeline, ChangeSet.add]
        · simp only [Ontology.spawn, hd, hs, hg, orKeep] at hok
          have hres := congrArg Prod.fst hok
          simp only at hres
          injection hres with hres
          rw [← hres]
          simp [Entity.goal, Entity.timeline, ChangeSet.add]
        · obtain ⟨cs, hg, hmem⟩ := hg
          simp only [Ontology.spawn, hd, hs, hg, orKeep] at hok
          by_cases hcs : cs.events = []
          · rw [hcs] at hmem
            simp at hmem
          · simp only [hcs, if_false, if_neg hcs] at hok
            have hres := congrArg Prod.fst hok
            simp only at hres
            injection hres with hres
            rw [← hres]
            exact hmem

/-- Claim C1 (amended) witness: spawn with a None-returning generator keeps
the goal event in the timeline. -/
theorem spawn_goal_in_timeline_witness :
    demoEnt.goal ∈ demoEnt.timeline.events :=
  spawn_goal_in_timeline demoOnt "a" "s" "g" genNone 5 2 demoEnt
    { demoOnt with entities := insertA demoOnt.entities "a" demoEnt }
    (fun _ => Or.inl rfl) rfl

/-! ### Navigator lemmas: topological phase -/

theorem foldl_better_mem (metric : Entity → ℚ) (o : Ontology) (xs : List String)
    (x : String) :
    xs.foldl (fun best a => if betterB metric o a best then a else best) x ∈ x :: xs := by
  induction xs generalizing x with
  | nil => simp
  | cons y ys ih =>
      simp only [List.foldl_cons]
      by_cases h : betterB metric o y x = true
      · rw [if_pos h]
        rcases List.mem_cons.mp (ih y) with h1 | h1
        · simp [h1]
        · simp [List.mem_cons, h1]
      · rw [if_neg h]
        rcases List.mem_cons.mp (ih x) with h1 | h1
        · simp [h1]
        · simp [List.mem_cons, h1]

theorem pickBest_mem (metric : Entity → ℚ) (o : Ontology) (l : List String)
    (a : String) (h : pickBest metric o l = some a) : a ∈ l := by
  cases l with
  | nil => simp [pickBest] at h
  | cons x xs =>
      simp only [pickBest, Option.some.injEq] at h
      rw [← h]
      exact foldl_better_mem metric o xs x

theorem pickBest_of_ne_nil (metric : Entity → ℚ) (o : Ontology) (l : List String)
    (h : l ≠ []) : ∃ a, pickBest metric o l = some a := by
  cases l with
  | nil => exact absurd rfl h
  | cons x xs => exact ⟨_, rfl⟩

theorem mem_eligibles (o : Ontology) (remaining : List String) (a : String) :
    a ∈ eligibles o remaining ↔
      a ∈ remaining ∧ ∀ b, o.edge a b → b ∉ remaining := by
  unfold eligibles
  rw [List.mem_filter]
  constructor
  · rintro ⟨h1, h2⟩
    refine ⟨h1, ?_⟩
    rintro b ⟨p, hp, hpb⟩ hbr
    have hh := List.all_eq_true.mp h2 p hp
    rw [decide_eq_true_iff] at hh
    exact hh (hpb ▸ hbr)
  · rintro ⟨h1, h2⟩
    refine ⟨h1, List.all_eq_true.mpr ?_⟩
    intro p hp
    rw [decide_eq_true_iff]
    exact fun hmem => h2 p.1 ⟨p, hp, rfl⟩ hmem

theorem exists_sink (o : Ontology) (s : List String) (hne : s ≠ [])
    (hacyc : o.Acyclic) : ∃ a ∈ s, ∀ b, o.edge a b → b ∉ s := by
  by_contra hcon
  push_neg at hcon
  haveI : Finite {x // x ∈ s} := (List.finite_toSet s).to_subtype
  have hsel : ∀ x : {x // x ∈ s}, ∃ y : {x // x ∈ s}, o.edge x.1 y.1 := by
    intro x
    obtain ⟨b, hb, hbs⟩ := hcon x.1 x.2
    exact ⟨⟨b, hbs⟩, hb⟩
  choose f hf using hsel
  have ha0 : ∃ a, a ∈ s := by
    cases s with
    | nil => exact absurd rfl hne
    | cons c cs => exact ⟨c, by simp⟩
  obtain ⟨a0, ha0⟩ := ha0
  have hiter : ∀ (k : ℕ) (x : {x // x ∈ s}),
      Relation.TransGen o.edge x.1 ((f^[k + 1]) x).1 := by
    intro k
    induction k with
    | zero =>
        intro x
        rw [Function.iterate_one]
        exact Relation.TransGen.single (hf x)
    | succ n ih =>
        intro x
        rw [Function.iterate_succ_apply']
        exact (ih x).tail (hf _)
  have key : ∀ m n : ℕ, m < n → (f^[m]) ⟨a0, ha0⟩ = (f^[n]) ⟨a0, ha0⟩ → False := by
    intro m n hlt he
    have h1 : Relation.TransGen o.edge ((f^[m]) ⟨a0, ha0⟩).1
        ((f^[(n - m - 1) + 1]) ((f^[m]) ⟨a0, ha0⟩)).1 := hiter (n - m - 1) _
    have h2 : (f^[(n - m - 1) + 1]) ((f^[m]) ⟨a0, ha0⟩) = (f^[n]) ⟨a0, ha0⟩ := by
      rw [← Function.iterate_add_apply]
      congr 1
      omega
    rw [h2, ← he] at h1
    exact hacyc _ h1
  obtain ⟨m, n, hmn, heq⟩ :=
    Finite.exists_ne_map_eq_of_infinite (fun k : ℕ => (f^[k]) ⟨a0, ha0⟩)
  rcases Nat.lt_or_ge m n with hlt | hge
  · exact key m n hlt heq
  · exact key n m (lt_of_le_of_ne hge (Ne.symm hmn)) heq.symm

theorem cyc_step (o : Ontology) {x : String}
    (h : Relation.TransGen o.edge x x) :
    ∃ y, o.edge x y ∧ Relation.TransGen o.edge y y := by
  obtain ⟨y, hxy, hyx⟩ := Relation.TransGen.head'_iff.mp h
  exact ⟨y, hxy, Relation.TransGen.tail' hyx hxy⟩

theorem edge_src_mem (o : Ontology) (hwf : o.WellFormed) {a b : String}
    (h : o.edge a b) : a ∈ o.entityIds := by
  obtain ⟨p, hp, hpb⟩ := h
  unfold Ontology.dependencies_of at hp
  cases hl : lookupA o.deps a with
  | none => rw [hl] at hp; simp at hp
  | some inner => exact (hwf.2 (a, inner) (mem_of_lookupA hl)).1

theorem topoLoop_cyclic (metric : Entity → ℚ) (o : Ontology) (x0 : String)
    (hx0 : Relation.TransGen o.edge x0 x0) :
    ∀ (fuel : Nat) (remaining acc : List String),
      (∀ y, Relation.TransGen o.edge y y → y ∈ remaining) →
      topoLoop metric o fuel remaining acc = .error .CycleError := by
  intro fuel
  induction fuel with
  | zero =>
      intro remaining acc hsub
      have hne : remaining ≠ [] := by
        intro h
        rw [h] at hsub
        exact List.not_mem_nil x0 (hsub x0 hx0)
      simp [topoLoop, hne]
  | succ n ih =>
      intro remaining acc hsub
      have hne : remaining ≠ [] := by
        intro h
        rw [h] at hsub
        exact List.not_mem_nil x0 (hsub x0 hx0)
      simp only [topoLoop, if_neg hne]
      cases hp : pickBest metric o (eligibles o remaining) with
      | none => rfl
      | some a =>
          apply ih
          intro y hy
          have hyr : y ∈ remaining := hsub y hy
          have hya : y ≠ a := by
            intro he
            subst he
            have helig := (mem_eligibles o remaining y).mp
              (pickBest_mem metric o _ y hp)
            obtain ⟨z, hz, hzc⟩ := cyc_step o hy
            exact helig.2 z hz (hsub z hzc)
          exact (List.mem_erase_of_ne hya).mpr hyr

theorem topoLoop_acyclic (metric : Entity → ℚ) (o : Ontology)
    (hacyc : o.Acyclic) :
    ∀ (fuel : Nat) (remaining acc : List String), remaining.length ≤ fuel →
      ∃ order, topoLoop metric o fuel remaining acc = .ok order ∧
        ∀ x, x ∈ remaining ∨ x ∈ acc → x ∈ order := by
  intro fuel
  induction fuel with
  | zero =>
      intro remaining acc hlen
      have hnil : remaining = [] := List.length_eq_zero.mp (Nat.le_zero.mp hlen)
      subst hnil
      refine ⟨acc.reverse, by simp [topoLoop], ?_⟩
      intro x hx
      rcases hx with hx | hx
      · simp at hx
      · simpa using hx
  | succ n ih =>
      intro remaining acc hlen
      by_cases hne : remaining = []
      · subst hne
        refine ⟨acc.reverse, by simp [topoLoop], ?_⟩
        intro x hx
        rcases hx with hx | hx
        · simp at hx
        · simpa using hx
      · obtain ⟨a, ha, hsink⟩ := exists_sink o remaining hne hacyc
        have helig : a ∈ eligibles o remaining :=
          (mem_eligibles o remaining a).mpr ⟨ha, hsink⟩
        have hnee : eligibles o remaining ≠ [] := by
          intro h
          rw [h] at helig
          exact List.not_mem_nil a helig
        obtain ⟨p, hp⟩ := pickBest_of_ne_nil metric o _ hnee
        have hpr : p ∈ remaining :=
          ((mem_eligibles o remaining p).mp (pickBest_mem metric o _ p hp)).1
        have hlen2 : (remaining.erase p).length ≤ n := by
          rw [List.length_erase_of_mem hpr]
          have := List.length_pos_of_mem hpr
          omega
        obtain ⟨order, ho, hmem⟩ := ih (remaining.erase p) (p :: acc) hlen2
        refine ⟨order, ?_, ?_⟩
        · simp only [topoLoop, if_neg hne, hp]
          exact ho
        · intro x hx
          apply hmem
          rcases hx with hx | hx
          · by_cases hxp : x = p
            · right
              simp [hxp]
            · left
              exact (List.mem_erase_of_ne hxp).mpr hx
          · right
            simp [hx]

/-! ### Navigator lemmas: merge walk -/

theorem scheduleEntity_combined (o : Ontology) (st : MergeState) (id : String) :
    ∃ tail, (scheduleEntity o st id).combined = st.combined ++ tail := by
  cases he : lookupA o.entities id with
  | none => exact ⟨[], by simp [scheduleEntity, he]⟩
  | some e =>
      cases hev : e.timeline.events with
      | nil => exact ⟨[], by simp [scheduleEntity, he, hev]⟩
      | cons ev rest =>
          simp only [scheduleEntity, he, hev]
          exact ⟨_, List.append_assoc _ _ _⟩

theorem foldl_schedule_combined (o : Ontology) (ids : List String) :
    ∀ st, ∃ tail, (ids.foldl (scheduleEntity o) st).combined = st.combined ++ tail := by
  induction ids with
  | nil => intro st; exact ⟨[], by simp⟩
  | cons id ids ih =>
      intro st
      obtain ⟨t1, h1⟩ := scheduleEntity_combined o st id
      obtain ⟨t2, h2⟩ := ih (scheduleEntity o st id)
      exact ⟨t1 ++ t2, by rw [List.foldl_cons, h2, h1, List.append_assoc]⟩

theorem scheduleEntity_event_mem (o : Ontology) (st : MergeState) (id : String)
    (e : Entity) (he : lookupA o.entities id = some e)
    {ev : ChangeEvent} (hev : ev ∈ e.timeline.events) :
    ∃ d : ℚ, { ev with t0 := ev.t0 + d } ∈ (scheduleEntity o st id).combined := by
  cases hevs : e.timeline.events with
  | nil => rw [hevs] at hev; simp at hev
  | cons e0 rest =>
      refine ⟨gapFor o st id (rest.foldl (fun m q => min m q.t0) e0.t0), ?_⟩
      simp only [scheduleEntity, he, hevs]
      apply List.mem_append_right
      have hev2 : ev ∈ e0 :: rest := hevs ▸ hev
      exact List.mem_map_of_mem _ hev2

theorem foldl_schedule_event_mem (o : Ontology) (ids : List String) :
    ∀ (st : MergeState) (id : String) (e : Entity), id ∈ ids →
      lookupA o.entities id = some e →
      ∀ ev ∈ e.timeline.events, ∃ d : ℚ,
        { ev with t0 := ev.t0 + d } ∈ (ids.foldl (scheduleEntity o) st).combined := by
  induction ids with
  | nil => intro st id e h; simp at h
  | cons a ids ih =>
      intro st id e hid he ev hev
      rw [List.foldl_cons]
      by_cases hia : id = a
      · subst hia
        obtain ⟨d, hd⟩ := scheduleEntity_event_mem o st id e he hev
        obtain ⟨tail, ht⟩ := foldl_schedule_combined o ids (scheduleEntity o st id)
        exact ⟨d, by rw [ht]; exact List.mem_append_left _ hd⟩
      · have hid2 : id ∈ ids := by
          rcases List.mem_cons.mp hid with h1 | h1
          · exact absurd h1 hia
          · exact h1
        exact ih (scheduleEntity o st a) id e hid2 he ev hev

theorem lookupA_of_mem_nodup {α : Type} {l : List (String × α)}
    (hnd : (l.map Prod.fst).Nodup) {k : String} {v : α}
    (h : (k, v) ∈ l) : lookupA l k = some v := by
  induction l with
  | nil => simp at h
  | cons p rest ih =>
      obtain ⟨k0, w⟩ := p
      simp only [List.map_cons, List.nodup_cons, List.mem_map] at hnd
      rcases List.mem_cons.mp h with h1 | h1
      · obtain ⟨hk, hv⟩ := Prod.mk.injEq .. ▸ h1
        subst hk
        simp [lookupA, hv.symm]
      · have hk : k0 ≠ k := by
          intro hke
          subst hke
          exact hnd.1 ⟨(k0, v), h1, rfl⟩
        simp [lookupA, hk, ih hnd.2 h1]

/-- Claim C2: for a well-formed Ontology, `multi_entity_schedule` fails with
CycleError whenever the dependency graph is not acyclic (the traversal is an
explicitly bounded loop, never unbounded recursion), and for every acyclic
graph it returns a complete combined timeline: every entity's timeline
events all appear in the returned ChangeSet, time-shifted by their entity's
offset. -/
theorem multi_entity_schedule_spec (o : Ontology) (metric : Entity → ℚ)
    (hwf : o.WellFormed) :
    (¬ o.Acyclic → Navigator.multi_entity_schedule metric o = .error .CycleError) ∧
    (o.Acyclic → ∃ cs, Navigator.multi_entity_schedule metric o = .ok cs ∧
      ∀ p ∈ o.entities, ∀ ev ∈ p.2.timeline.events,
        ∃ d : ℚ, { ev with t0 := ev.t0 + d } ∈ cs.events) := by
  constructor
  · intro hnac
    unfold Ontology.Acyclic at hnac
    push_neg at hnac
    obtain ⟨x0, hx0⟩ := hnac
    have hsub : ∀ y, Relation.TransGen o.edge y y → y ∈ o.entityIds := by
      intro y hy
      obtain ⟨z, hz, _⟩ := cyc_step o hy
      exact edge_src_mem o hwf hz
    have hts : topoSort metric o = .error .CycleError :=
      topoLoop_cyclic metric o x0 hx0 _ _ _ hsub
    unfold Navigator.multi_entity_schedule
    rw [hts]
  · intro hac
    obtain ⟨order, ho, hmem⟩ := topoLoop_acyclic metric o hac
      o.entityIds.length o.entityIds [] (le_refl _)
    refine ⟨⟨(order.foldl (scheduleEntity o) {}).combined⟩, ?_, ?_⟩
    · unfold Navigator.multi_entity_schedule topoSort
      rw [ho]
    · intro p hp ev hev
      have hid : p.1 ∈ order :=
        hmem p.1 (Or.inl (List.mem_map_of_mem Prod.fst hp))
      have hlk : lookupA o.entities p.1 = some p.2 := by
        apply lookupA_of_mem_nodup hwf.1
        exact Prod.mk.eta ▸ hp
      exact foldl_schedule_event_mem o order {} p.1 p.2 hid hlk ev hev

def metricZero : Entity → ℚ := fun _ => 0

def cycOnt : Ontology :=
  ⟨[("s", demoSchema)], [("a", demoEnt), ("b", demoEntB)],
    [("a", [("b", "supports")]), ("b", [("a", "supports")])]⟩

/-- Claim C2 witness: the two-node cycle a -> b -> a raises CycleError. -/
theorem multi_entity_schedule_spec_witness :
    Navigator.multi_entity_schedule metricZero cycOnt = .error .CycleError := by
  have hwf : cycOnt.WellFormed := by decide
  have h1 : cycOnt.edge "a" "b" := by decide
  have h2 : cycOnt.edge "b" "a" := by decide
  have hcyc : Relation.TransGen cycOnt.edge "a" "a" :=
    Relation.TransGen.head h1 (Relation.TransGen.single h2)
  exact (multi_entity_schedule_spec cycOnt metricZero hwf).1
    (fun hac => absurd hcyc (hac "a"))

end Chronos
